import Mathlib

/-!
Shallow embedding of the settlement-evaluation core of the batch-auction
trading protocol, together with theorems settling the frozen claims.

Embedded source files:
* `crates/solver/src/driver/solver_settlements.rs` — the maturity filter
  (`retain_mature_settlements` / `find_mature_settlements`) and the objective
  value computation (`compute_objective_value`, `RatedSettlement`).
* `crates/solvers/src/api/dto/solution.rs` — the wire-level `Solution`
  structure and `Solution::trivial`.
* `orderbook/src/api/get_fee_info.rs` — the fee-info HTTP response function.

Modelling conventions:
* `BigRational` is embedded as `ℚ` (both are exact arbitrary-precision
  rationals).
* `U256` values appearing only as exact quantities (gas units, fees,
  amounts) are embedded as `Nat`; no arithmetic in the embedded code
  depends on the 256-bit bound.
* `OrderUid` (a 56-byte identifier) is embedded as `Nat`: the filter only
  uses equality of uids, and byte-string identity embeds injectively.
* `DateTime<Utc>` timestamps are embedded as `Int` (a time axis with
  subtraction and `≤`); `chrono` durations are likewise `Int`.
* The `HashSet`s of the filter are embedded as duplicate-free `List`s with
  membership-guarded insertion; `HashSet::insert`'s return value (whether
  the element is new) is the `Bool` component of `insertUid`.
-/

namespace SolverDriver

/-- Order class, from `model::order::OrderClass`: `Market`, `Limit`
(payload irrelevant to the filter) or `Liquidity`. -/
inductive OrderClass where
  | market
  | limit
  | liquidity
  deriving DecidableEq, Repr

/-- Classes counting as user orders. Modelled from the spec: "Market and
Limit orders are \"user orders\"; Liquidity orders are protocol/solver
generated and never count toward maturity." -/
def OrderClass.isUser : OrderClass → Bool
  | .liquidity => false
  | _ => true

/-- The part of `model::order::Order` the filter reads: the metadata fields
`uid`, `creation_date` and `class`. -/
structure Order where
  uid : Nat
  creationDate : Int
  orderClass : OrderClass
  deriving DecidableEq, Repr

/-- The part of `settlement::Trade` the filter reads: the order. -/
structure Trade where
  order : Order
  deriving DecidableEq, Repr

/-- The part of `settlement::Settlement` the filter reads: its trades. -/
structure Settlement where
  trades : List Trade
  deriving DecidableEq, Repr

/-- Modelled from the spec: `Settlement::user_trades` (defined in
`crates/solver/src/settlement.rs`, not present in the provided sources) —
"A settlement's *user trades* are the subsequence of trades whose order is
Market or Limit class." -/
def Settlement.user_trades (s : Settlement) : List Trade :=
  s.trades.filter (fun t => t.order.orderClass.isUser)

/-- Function `has_user_order`: the settlement's user-trade iterator is nonempty. -/
def has_user_order (s : Settlement) : Bool :=
  !s.user_trades.isEmpty

/-- Function `compute_objective_value`: `surplus + solver_fees - gas_estimate *
gas_price`, in exact rational arithmetic. -/
def compute_objective_value (surplus solver_fees gas_estimate gas_price : ℚ) : ℚ :=
  let cost := gas_estimate * gas_price
  surplus + solver_fees - cost

/-- Record `RatedSettlement`: a settlement together with its rating inputs. -/
structure RatedSettlement where
  id : Nat
  settlement : Settlement
  surplus : ℚ
  unscaled_subsidized_fee : ℚ
  scaled_unsubsidized_fee : ℚ
  gas_estimate : Nat
  gas_price : ℚ

/-- Method `RatedSettlement::objective_value`: converts the gas estimate to a
rational and calls `compute_objective_value` with the scaled unsubsidized
fee as the solver fee. -/
def RatedSettlement.objective_value (r : RatedSettlement) : ℚ :=
  let gas_estimate : ℚ := (r.gas_estimate : ℚ)
  compute_objective_value r.surplus r.scaled_unsubsidized_fee gas_estimate r.gas_price

end SolverDriver

namespace SolverDriver

/-- State of the fixed-point loop inside `find_mature_settlements`:
the `valid_trades` uid set, the `valid_settlement_indices` set, and the
per-pass `new_order_added` flag. Both `HashSet`s are embedded as
duplicate-free lists. -/
structure FMState where
  valid_trades : List Nat
  valid_settlement_indices : List Nat
  new_order_added : Bool
  deriving DecidableEq, Repr

/-- Rust `HashSet::insert` on the uid set: returns the new set and whether the
uid was newly added. -/
def insertUid (vt : List Nat) (u : Nat) : List Nat × Bool :=
  if u ∈ vt then (vt, false) else (u :: vt, true)

/-- The inner `for trade in settlement.user_trades()` loop of the filter:
inserts every uid, or-accumulating the `new_order_added` results. -/
def insertUids : List Nat → List Nat → List Nat × Bool
  | vt, [] => (vt, false)
  | vt, u :: us =>
    let p := insertUid vt u
    let q := insertUids p.1 us
    (q.1, p.2 || q.2)

/-- The per-trade test of the filter: mature by age
(`creation_date <= settle_orders_older_than`) or mature by association
(uid already in `valid_trades`). -/
def trade_is_valid (threshold : Int) (vt : List Nat) (t : Trade) : Bool :=
  decide (t.order.creationDate ≤ threshold) || decide (t.order.uid ∈ vt)

/-- Predicate `contains_valid_user_trade` of the filter body:
`settlement.user_trades().any(...)`. -/
def contains_valid_user_trade (threshold : Int) (vt : List Nat) (s : Settlement) : Bool :=
  s.user_trades.any (trade_is_valid threshold vt)

/-- The uids of a settlement's user trades (the uids the filter inserts
when the settlement qualifies). -/
def settlement_user_uids (s : Settlement) : List Nat :=
  s.user_trades.map (fun t => t.order.uid)

/-- One iteration of the `for (index, (_, settlement))` loop body. -/
def fm_step (threshold : Int) (st : FMState) (idx : Nat) (s : Settlement) : FMState :=
  if idx ∈ st.valid_settlement_indices then st
  else if contains_valid_user_trade threshold st.valid_trades s then
    let r := insertUids st.valid_trades (settlement_user_uids s)
    { valid_trades := r.1
      valid_settlement_indices := idx :: st.valid_settlement_indices
      new_order_added := st.new_order_added || r.2 }
  else st

/-- One full pass of the `for` loop over the enumerated settlements. -/
def fm_pass (threshold : Int) : List (Nat × Settlement) → FMState → FMState
  | [], st => st
  | item :: rest, st => fm_pass threshold rest (fm_step threshold st item.1 item.2)

/-- The outer `loop`: reset `new_order_added`, run a full pass, and repeat
while a pass added a new order. The Rust loop is unbounded; here it carries
a fuel argument, and `fm_fuel` below is proved sufficient to reach the
fixed point (claim on termination). -/
def fm_loop (threshold : Int) (items : List (Nat × Settlement)) : Nat → FMState → FMState
  | 0, st => st
  | fuel + 1, st =>
    let st1 := fm_pass threshold items { st with new_order_added := false }
    if st1.new_order_added then fm_loop threshold items fuel st1 else st1

/-- All user-order uids occurring in a list of settlements. -/
def all_user_uids (S : List Settlement) : List Nat :=
  (S.map settlement_user_uids).flatten

/-- Fuel sufficient for `fm_loop`: one more than the number of distinct
user-order uids across all settlements. -/
def fm_fuel (S : List Settlement) : Nat :=
  (all_user_uids S).dedup.length + 1

/-- Function `find_mature_settlements`: run the fixed-point loop from the empty
state over the enumerated settlements and return the valid indices. The
frozen deadline `now - min_order_age` is the `threshold` argument. -/
def find_mature_settlements {α : Type} (threshold : Int)
    (settlements : List (α × Settlement)) : List Nat :=
  let S := settlements.map Prod.snd
  (fm_loop threshold S.enum (fm_fuel S) ⟨[], [], false⟩).valid_settlement_indices

/-- Enumeration `SolverRejectionReason`: the only reason this module emits. -/
inductive SolverRejectionReason where
  | NoMatureOrders
  deriving DecidableEq, Repr

/-- Enumeration `AuctionResult`: the filter only ever emits `Rejected`. -/
inductive AuctionResult where
  | Rejected (reason : SolverRejectionReason)
  deriving DecidableEq, Repr

/-- Function `retain_mature_settlements`: compute the valid indices, notify the
solver of every excluded settlement with `Rejected(NoMatureOrders)` for
the auction id, and return the retained pairs in input order. The frozen
`now` and `min_order_age` are explicit; the threshold is computed once.
The fire-and-forget notifications are returned as the second component. -/
def retain_mature_settlements {α : Type} (min_order_age now : Int)
    (settlements : List (α × Settlement)) (auction_id : Int) :
    List (α × Settlement) × List (α × Int × AuctionResult) :=
  let threshold := now - min_order_age
  let valid := find_mature_settlements threshold settlements
  let notifications :=
    (settlements.enum.filter (fun q => !(decide (q.1 ∈ valid)))).map
      (fun q => (q.2.1, auction_id, AuctionResult.Rejected .NoMatureOrders))
  let retained :=
    (settlements.enum.filter (fun q => decide (q.1 ∈ valid))).map Prod.snd
  (retained, notifications)

/-- Declarative characterisation of maturity, used to settle the claims:
a settlement of the list is mature if one of its user trades is old enough
(mature by age), or shares a uid with a user trade of a mature settlement
of the list (mature by association), transitively. -/
inductive MatureSettlement (threshold : Int) (S : List Settlement) : Settlement → Prop where
  | by_age (s : Settlement) (hs : s ∈ S) (t : Trade) (ht : t ∈ s.user_trades)
      (hage : t.order.creationDate ≤ threshold) : MatureSettlement threshold S s
  | by_assoc (s : Settlement) (hs : s ∈ S) (a : Settlement)
      (ha : MatureSettlement threshold S a) (t : Trade) (ht : t ∈ s.user_trades)
      (u : Trade) (hu : u ∈ a.user_trades) (huid : t.order.uid = u.order.uid) :
      MatureSettlement threshold S s

/-- The loop is at a fixed point: every settlement of the list is either
already valid or contains no valid user trade. -/
def at_fix (thr : Int) (items : List (Nat × Settlement)) (st : FMState) : Prop :=
  ∀ p ∈ items, p.1 ∉ st.valid_settlement_indices →
    contains_valid_user_trade thr st.valid_trades p.2 = false

/-- Invariant of the fixed-point loop used for soundness: every valid index
points at a mature settlement whose user uids are all in the uid set, and
every uid in the uid set comes from the user trades of some mature
settlement. -/
def FMInv (thr : Int) (S : List Settlement) (st : FMState) : Prop :=
  (∀ i ∈ st.valid_settlement_indices, ∃ h : i < S.length,
      MatureSettlement thr S (S.get ⟨i, h⟩) ∧
      settlement_user_uids (S.get ⟨i, h⟩) ⊆ st.valid_trades) ∧
  (∀ u ∈ st.valid_trades, ∃ s, s ∈ S ∧ MatureSettlement thr S s ∧ u ∈ settlement_user_uids s)

/-- The state the fixed-point loop of `find_mature_settlements` ends in. -/
def fm_final (thr : Int) (S : List Settlement) : FMState :=
  fm_loop thr S.enum (fm_fuel S) ⟨[], [], false⟩

end SolverDriver

namespace SolversDto

/-- A 20-byte token or account address (`H160`), embedded as `Nat`. -/
abbrev H160 := Nat

/-- A 256-bit unsigned integer (`U256`), embedded as `Nat`. -/
abbrev U256 := Nat

/-- Order side of a JIT order: `sell` or `buy`. -/
inductive Kind where
  | sell
  | buy
  deriving DecidableEq, Repr

/-- Sell token balance source, a closed enumeration. -/
inductive SellTokenBalance where
  | erc20
  | internal
  | external
  deriving DecidableEq, Repr

/-- Buy token balance destination, a closed enumeration. -/
inductive BuyTokenBalance where
  | erc20
  | internal
  deriving DecidableEq, Repr

/-- Signing scheme, a closed enumeration. -/
inductive SigningScheme where
  | eip712
  | ethSign
  | preSign
  | eip1271
  deriving DecidableEq, Repr

/-- A fully specified just-in-time order carried by a `Jit` trade. The
56-byte uid, 32-byte app data and byte vectors are embedded as `Nat` /
`List Nat`. -/
structure JitOrder where
  sell_token : H160
  buy_token : H160
  receiver : H160
  sell_amount : U256
  buy_amount : U256
  valid_to : Nat
  app_data : Nat
  fee_amount : U256
  kind : Kind
  partially_fillable : Bool
  sell_token_balance : SellTokenBalance
  buy_token_balance : BuyTokenBalance
  signing_scheme : SigningScheme
  signature : List Nat
  deriving DecidableEq, Repr

/-- Wire trade variants: `Fulfillment` references an existing order by its
56-byte uid; `Jit` carries a full just-in-time order. -/
inductive Trade where
  | fulfillment (order : Nat) (executed_amount : U256)
  | jit (order : JitOrder) (executed_amount : U256)
  deriving DecidableEq, Repr

/-- A token allowance required by a custom interaction. -/
structure Allowance where
  token : H160
  spender : H160
  amount : U256
  deriving DecidableEq, Repr

/-- A token amount entering or leaving a custom interaction. -/
structure Asset where
  token : H160
  amount : U256
  deriving DecidableEq, Repr

/-- Wire interaction variants: a liquidity-pool swap or an arbitrary
external call. -/
inductive Interaction where
  | liquidity (internalize : Bool) (id : Nat) (input_token output_token : H160)
      (input_amount output_amount : U256)
  | custom (internalize : Bool) (target : H160) (value : U256) (call_data : List Nat)
      (allowances : List Allowance) (inputs outputs : List Asset)
  deriving DecidableEq, Repr

/-- The canonical wire `Solution`: a price map (`HashMap<H160, U256>`,
embedded as an association list), trades and interactions. -/
structure Solution where
  prices : List (H160 × U256)
  trades : List Trade
  interactions : List Interaction
  deriving DecidableEq, Repr

/-- Constructor `Solution::trivial`: every field is `Default::default()`, i.e. the
empty map and empty vectors. -/
def Solution.trivial : Solution :=
  { prices := []
    trades := []
    interactions := [] }

end SolversDto

namespace Orderbook

/-- The `FeeInfo` response body of the fee endpoint: an expiration
timestamp, a minimal fee (`U256`) and a `u32` fee ratio. -/
structure FeeInfo where
  expiration_date : Int
  minimal_fee : Nat
  fee_ratio : Nat
  deriving DecidableEq, Repr

/-- The observable reply bodies of `get_fee_info_response`. Modelled from
the code's use of the (not provided) helpers `super::error(kind, message)`
and `super::internal_error()`: an error body carries its kind and message
strings. -/
inductive ReplyBody where
  | feeInfo (info : FeeInfo)
  | errorBody (kind msg : String)
  | internalErrorBody
  deriving DecidableEq, Repr

/-- Function `get_fee_info_response`: match on the fee-calculator result and build
the reply with its HTTP status code. `anyhow::Result<Option<(U256,
DateTime<Utc>)>>` is embedded as `Except String (Option (Nat × Int))`. -/
def get_fee_info_response (result : Except String (Option (Nat × Int))) : ReplyBody × Nat :=
  match result with
  | .ok (some (minimal_fee, expiration_date)) =>
      (ReplyBody.feeInfo ⟨expiration_date, minimal_fee, 0⟩, 200)
  | .ok none => (ReplyBody.errorBody "NotFound" "Token was not found", 404)
  | .error _ => (ReplyBody.internalErrorBody, 500)

end Orderbook

namespace SolverDriver

theorem insertUid_subset (vt : List Nat) (u : Nat) : vt ⊆ (insertUid vt u).1 := by
  unfold insertUid
  split
  · exact fun v hv => hv
  · exact fun v hv => List.mem_cons_of_mem _ hv

theorem mem_insertUid (vt : List Nat) (u v : Nat) :
    v ∈ (insertUid vt u).1 ↔ v = u ∨ v ∈ vt := by
  unfold insertUid
  split
  · rename_i h
    constructor
    · exact fun hv => Or.inr hv
    · rintro (rfl | hv)
      · exact h
      · exact hv
  · exact List.mem_cons

theorem insertUid_nodup (vt : List Nat) (u : Nat) (h : vt.Nodup) :
    (insertUid vt u).1.Nodup := by
  unfold insertUid
  split
  · exact h
  · rename_i hu
    exact List.nodup_cons.2 ⟨hu, h⟩

theorem insertUid_of_not_added (vt : List Nat) (u : Nat)
    (h : (insertUid vt u).2 = false) : (insertUid vt u).1 = vt := by
  unfold insertUid at h ⊢
  split
  · rfl
  · rename_i hu
    rw [if_neg hu] at h
    simp at h

theorem insertUid_length (vt : List Nat) (u : Nat) :
    vt.length ≤ (insertUid vt u).1.length := by
  unfold insertUid
  split
  · exact Nat.le_refl _
  · exact Nat.le_succ _

theorem insertUid_of_added (vt : List Nat) (u : Nat)
    (h : (insertUid vt u).2 = true) : (insertUid vt u).1.length = vt.length + 1 := by
  unfold insertUid at h ⊢
  split
  · rename_i hu
    rw [if_pos hu] at h
    simp at h
  · rfl

theorem insertUids_subset : ∀ (us vt : List Nat), vt ⊆ (insertUids vt us).1
  | [], vt => fun v hv => hv
  | u :: us, vt => by
    intro v hv
    show v ∈ (insertUids (insertUid vt u).1 us).1
    exact insertUids_subset us (insertUid vt u).1 (insertUid_subset vt u hv)

theorem mem_insertUids : ∀ (us vt : List Nat) (v : Nat),
    v ∈ (insertUids vt us).1 ↔ v ∈ us ∨ v ∈ vt
  | [], vt, v => by simp [insertUids]
  | u :: us, vt, v => by
    show v ∈ (insertUids (insertUid vt u).1 us).1 ↔ _
    rw [mem_insertUids us (insertUid vt u).1 v, mem_insertUid vt u v]
    constructor
    · rintro (h | h | h)
      · exact Or.inl (List.mem_cons_of_mem _ h)
      · exact Or.inl (h ▸ List.mem_cons_self u us)
      · exact Or.inr h
    · rintro (h | h)
      · rcases List.mem_cons.1 h with h | h
        · exact Or.inr (Or.inl h)
        · exact Or.inl h
      · exact Or.inr (Or.inr h)

theorem insertUids_nodup : ∀ (us vt : List Nat), vt.Nodup → (insertUids vt us).1.Nodup
  | [], vt, h => h
  | u :: us, vt, h =>
    insertUids_nodup us (insertUid vt u).1 (insertUid_nodup vt u h)

theorem insertUids_of_not_added : ∀ (us vt : List Nat),
    (insertUids vt us).2 = false → (insertUids vt us).1 = vt
  | [], vt, _ => rfl
  | u :: us, vt, h => by
    have hsplit : (insertUid vt u).2 = false ∧ (insertUids (insertUid vt u).1 us).2 = false := by
      simpa [insertUids] using h
    have h1 : (insertUid vt u).1 = vt := insertUid_of_not_added vt u hsplit.1
    have h2 := insertUids_of_not_added us (insertUid vt u).1 hsplit.2
    show (insertUids (insertUid vt u).1 us).1 = vt
    rw [h2, h1]

theorem insertUids_length : ∀ (us vt : List Nat),
    vt.length ≤ (insertUids vt us).1.length
  | [], vt => Nat.le_refl _
  | u :: us, vt =>
    Nat.le_trans (insertUid_length vt u) (insertUids_length us (insertUid vt u).1)

theorem insertUids_of_added : ∀ (us vt : List Nat),
    (insertUids vt us).2 = true → vt.length < (insertUids vt us).1.length
  | [], vt, h => by simp [insertUids] at h
  | u :: us, vt, h => by
    have hsplit : (insertUid vt u).2 = true ∨ (insertUids (insertUid vt u).1 us).2 = true := by
      simpa [insertUids, Bool.or_eq_true] using h
    rcases hsplit with h1 | h2
    · have := insertUid_of_added vt u h1
      calc vt.length < (insertUid vt u).1.length := by omega
        _ ≤ (insertUids (insertUid vt u).1 us).1.length := insertUids_length us _
    · exact Nat.lt_of_le_of_lt (insertUid_length vt u)
        (insertUids_of_added us (insertUid vt u).1 h2)

end SolverDriver

namespace SolverDriver

theorem fm_step_eq_of_mem (thr : Int) (st : FMState) (idx : Nat) (s : Settlement)
    (h : idx ∈ st.valid_settlement_indices) : fm_step thr st idx s = st := by
  unfold fm_step
  rw [if_pos h]

theorem fm_step_eq_of_valid (thr : Int) (st : FMState) (idx : Nat) (s : Settlement)
    (h1 : idx ∉ st.valid_settlement_indices)
    (h2 : contains_valid_user_trade thr st.valid_trades s = true) :
    fm_step thr st idx s =
      { valid_trades := (insertUids st.valid_trades (settlement_user_uids s)).1
        valid_settlement_indices := idx :: st.valid_settlement_indices
        new_order_added :=
          st.new_order_added || (insertUids st.valid_trades (settlement_user_uids s)).2 } := by
  unfold fm_step
  rw [if_neg h1, if_pos h2]

theorem fm_step_eq_of_invalid (thr : Int) (st : FMState) (idx : Nat) (s : Settlement)
    (h1 : idx ∉ st.valid_settlement_indices)
    (h2 : contains_valid_user_trade thr st.valid_trades s = false) :
    fm_step thr st idx s = st := by
  unfold fm_step
  rw [if_neg h1, if_neg (by rw [h2]; simp)]

theorem fm_step_vt_subset (thr : Int) (st : FMState) (idx : Nat) (s : Settlement) :
    st.valid_trades ⊆ (fm_step thr st idx s).valid_trades := by
  unfold fm_step
  split
  · exact fun v hv => hv
  · split
    · exact fun v hv => insertUids_subset _ _ hv
    · exact fun v hv => hv

theorem fm_step_vi_subset (thr : Int) (st : FMState) (idx : Nat) (s : Settlement) :
    st.valid_settlement_indices ⊆ (fm_step thr st idx s).valid_settlement_indices := by
  unfold fm_step
  split
  · exact fun v hv => hv
  · split
    · exact fun v hv => List.mem_cons_of_mem _ hv
    · exact fun v hv => hv

theorem fm_step_vi_cases (thr : Int) (st : FMState) (idx : Nat) (s : Settlement) (v : Nat)
    (hv : v ∈ (fm_step thr st idx s).valid_settlement_indices) :
    v = idx ∨ v ∈ st.valid_settlement_indices := by
  unfold fm_step at hv
  split at hv
  · exact Or.inr hv
  · split at hv
    · exact List.mem_cons.1 hv
    · exact Or.inr hv

theorem fm_step_vt_cases (thr : Int) (st : FMState) (idx : Nat) (s : Settlement) (v : Nat)
    (hv : v ∈ (fm_step thr st idx s).valid_trades) :
    v ∈ st.valid_trades ∨ v ∈ settlement_user_uids s := by
  unfold fm_step at hv
  split at hv
  · exact Or.inl hv
  · split at hv
    · rcases (mem_insertUids _ _ _).1 hv with h | h
      · exact Or.inr h
      · exact Or.inl h
    · exact Or.inl hv

theorem fm_step_noa_mono (thr : Int) (st : FMState) (idx : Nat) (s : Settlement)
    (h : st.new_order_added = true) : (fm_step thr st idx s).new_order_added = true := by
  unfold fm_step
  split
  · exact h
  · split
    · simp [h]
    · exact h

theorem fm_step_noa_false (thr : Int) (st : FMState) (idx : Nat) (s : Settlement)
    (h : (fm_step thr st idx s).new_order_added = false) :
    (fm_step thr st idx s).valid_trades = st.valid_trades ∧ st.new_order_added = false := by
  by_cases h1 : idx ∈ st.valid_settlement_indices
  · unfold fm_step at h ⊢
    rw [if_pos h1] at h ⊢
    exact ⟨rfl, h⟩
  · by_cases h2 : contains_valid_user_trade thr st.valid_trades s = true
    · unfold fm_step at h ⊢
      rw [if_neg h1, if_pos h2] at h ⊢
      simp only [Bool.or_eq_false_iff] at h
      exact ⟨insertUids_of_not_added _ _ h.2, h.1⟩
    · unfold fm_step at h ⊢
      rw [if_neg h1, if_neg h2] at h ⊢
      exact ⟨rfl, h⟩

theorem fm_step_vt_nodup (thr : Int) (st : FMState) (idx : Nat) (s : Settlement)
    (h : st.valid_trades.Nodup) : (fm_step thr st idx s).valid_trades.Nodup := by
  unfold fm_step
  split
  · exact h
  · split
    · exact insertUids_nodup _ _ h
    · exact h

theorem fm_step_vt_length (thr : Int) (st : FMState) (idx : Nat) (s : Settlement) :
    st.valid_trades.length ≤ (fm_step thr st idx s).valid_trades.length := by
  unfold fm_step
  split
  · exact Nat.le_refl _
  · split
    · exact insertUids_length _ _
    · exact Nat.le_refl _

theorem fm_step_progress (thr : Int) (st : FMState) (idx : Nat) (s : Settlement)
    (h0 : st.new_order_added = false) (h1 : (fm_step thr st idx s).new_order_added = true) :
    st.valid_trades.length < (fm_step thr st idx s).valid_trades.length := by
  by_cases hm : idx ∈ st.valid_settlement_indices
  · rw [fm_step_eq_of_mem thr st idx s hm] at h1
    rw [h0] at h1
    simp at h1
  · by_cases hc : contains_valid_user_trade thr st.valid_trades s = true
    · rw [fm_step_eq_of_valid thr st idx s hm hc] at h1 ⊢
      rw [h0] at h1
      simp only [Bool.false_or] at h1
      exact insertUids_of_added _ _ h1
    · rw [fm_step_eq_of_invalid thr st idx s hm (Bool.not_eq_true _ ▸ hc)] at h1
      rw [h0] at h1
      simp at h1

theorem fm_step_marks (thr : Int) (st : FMState) (idx : Nat) (s : Settlement)
    (h : contains_valid_user_trade thr st.valid_trades s = true) :
    idx ∈ (fm_step thr st idx s).valid_settlement_indices := by
  by_cases hm : idx ∈ st.valid_settlement_indices
  · rw [fm_step_eq_of_mem thr st idx s hm]
    exact hm
  · rw [fm_step_eq_of_valid thr st idx s hm h]
    exact List.mem_cons_self _ _

theorem fm_step_skip (thr : Int) (st : FMState) (idx : Nat) (s : Settlement)
    (h : idx ∉ st.valid_settlement_indices →
      contains_valid_user_trade thr st.valid_trades s = false) :
    fm_step thr st idx s = st := by
  by_cases hm : idx ∈ st.valid_settlement_indices
  · exact fm_step_eq_of_mem thr st idx s hm
  · exact fm_step_eq_of_invalid thr st idx s hm (h hm)

theorem fm_step_marks_uids (thr : Int) (st : FMState) (idx : Nat) (s : Settlement)
    (hidx : idx ∉ st.valid_settlement_indices)
    (h : contains_valid_user_trade thr st.valid_trades s = true) :
    settlement_user_uids s ⊆ (fm_step thr st idx s).valid_trades := by
  rw [fm_step_eq_of_valid thr st idx s hidx h]
  intro v hv
  exact (mem_insertUids _ _ _).2 (Or.inl hv)

end SolverDriver

namespace SolverDriver

theorem bool_eq_true_of_not_false {b : Bool} (h : ¬ b = false) : b = true := by
  cases b
  · exact absurd rfl h
  · rfl

theorem bool_eq_false_of_not_true {b : Bool} (h : ¬ b = true) : b = false := by
  cases b
  · rfl
  · exact absurd rfl h

theorem fm_pass_vt_subset (thr : Int) :
    ∀ (items : List (Nat × Settlement)) (st : FMState),
      st.valid_trades ⊆ (fm_pass thr items st).valid_trades
  | [], _ => fun v hv => hv
  | item :: rest, st => fun v hv =>
    fm_pass_vt_subset thr rest (fm_step thr st item.1 item.2)
      (fm_step_vt_subset thr st item.1 item.2 hv)

theorem fm_pass_vi_subset (thr : Int) :
    ∀ (items : List (Nat × Settlement)) (st : FMState),
      st.valid_settlement_indices ⊆ (fm_pass thr items st).valid_settlement_indices
  | [], _ => fun v hv => hv
  | item :: rest, st => fun v hv =>
    fm_pass_vi_subset thr rest (fm_step thr st item.1 item.2)
      (fm_step_vi_subset thr st item.1 item.2 hv)

theorem fm_pass_vt_cases (thr : Int) :
    ∀ (items : List (Nat × Settlement)) (st : FMState) (v : Nat),
      v ∈ (fm_pass thr items st).valid_trades →
      v ∈ st.valid_trades ∨ ∃ p ∈ items, v ∈ settlement_user_uids p.2
  | [], _, _ => fun hv => Or.inl hv
  | item :: rest, st, v => fun hv => by
    rcases fm_pass_vt_cases thr rest (fm_step thr st item.1 item.2) v hv with h | ⟨p, hp, hu⟩
    · rcases fm_step_vt_cases thr st item.1 item.2 v h with h' | h'
      · exact Or.inl h'
      · exact Or.inr ⟨item, List.mem_cons_self _ _, h'⟩
    · exact Or.inr ⟨p, List.mem_cons_of_mem _ hp, hu⟩

theorem fm_pass_vi_cases (thr : Int) :
    ∀ (items : List (Nat × Settlement)) (st : FMState) (v : Nat),
      v ∈ (fm_pass thr items st).valid_settlement_indices →
      v ∈ st.valid_settlement_indices ∨ ∃ p ∈ items, v = p.1
  | [], _, _ => fun hv => Or.inl hv
  | item :: rest, st, v => fun hv => by
    rcases fm_pass_vi_cases thr rest (fm_step thr st item.1 item.2) v hv with h | ⟨p, hp, hu⟩
    · rcases fm_step_vi_cases thr st item.1 item.2 v h with h' | h'
      · exact Or.inr ⟨item, List.mem_cons_self _ _, h'⟩
      · exact Or.inl h'
    · exact Or.inr ⟨p, List.mem_cons_of_mem _ hp, hu⟩

theorem fm_pass_noa_mono (thr : Int) :
    ∀ (items : List (Nat × Settlement)) (st : FMState),
      st.new_order_added = true → (fm_pass thr items st).new_order_added = true
  | [], _ => fun h => h
  | item :: rest, st => fun h =>
    fm_pass_noa_mono thr rest (fm_step thr st item.1 item.2)
      (fm_step_noa_mono thr st item.1 item.2 h)

theorem fm_pass_noa_false_vt (thr : Int) :
    ∀ (items : List (Nat × Settlement)) (st : FMState),
      (fm_pass thr items st).new_order_added = false →
      (fm_pass thr items st).valid_trades = st.valid_trades
  | [], _ => fun _ => rfl
  | item :: rest, st => fun h => by
    have h' : (fm_pass thr rest (fm_step thr st item.1 item.2)).new_order_added = false := h
    have hst1 : (fm_step thr st item.1 item.2).new_order_added = false := by
      by_contra hc
      rw [fm_pass_noa_mono thr rest _ (bool_eq_true_of_not_false hc)] at h'
      exact absurd h' (by simp)
    have h1 := fm_step_noa_false thr st item.1 item.2 hst1
    have h2 := fm_pass_noa_false_vt thr rest (fm_step thr st item.1 item.2) h'
    show (fm_pass thr rest (fm_step thr st item.1 item.2)).valid_trades = _
    rw [h2, h1.1]

theorem fm_pass_nodup (thr : Int) :
    ∀ (items : List (Nat × Settlement)) (st : FMState),
      st.valid_trades.Nodup → (fm_pass thr items st).valid_trades.Nodup
  | [], _ => fun h => h
  | item :: rest, st => fun h =>
    fm_pass_nodup thr rest (fm_step thr st item.1 item.2)
      (fm_step_vt_nodup thr st item.1 item.2 h)

theorem fm_pass_vt_length (thr : Int) :
    ∀ (items : List (Nat × Settlement)) (st : FMState),
      st.valid_trades.length ≤ (fm_pass thr items st).valid_trades.length
  | [], _ => Nat.le_refl _
  | item :: rest, st =>
    Nat.le_trans (fm_step_vt_length thr st item.1 item.2)
      (fm_pass_vt_length thr rest (fm_step thr st item.1 item.2))

theorem fm_pass_progress (thr : Int) :
    ∀ (items : List (Nat × Settlement)) (st : FMState),
      st.new_order_added = false → (fm_pass thr items st).new_order_added = true →
      st.valid_trades.length < (fm_pass thr items st).valid_trades.length
  | [], st => fun h0 h1 => absurd (h0 ▸ h1) (by simp)
  | item :: rest, st => fun h0 h1 => by
    by_cases hst1 : (fm_step thr st item.1 item.2).new_order_added = true
    · exact Nat.lt_of_lt_of_le (fm_step_progress thr st item.1 item.2 h0 hst1)
        (fm_pass_vt_length thr rest (fm_step thr st item.1 item.2))
    · have h1' := fm_step_noa_false thr st item.1 item.2 (bool_eq_false_of_not_true hst1)
      have := fm_pass_progress thr rest (fm_step thr st item.1 item.2)
        (bool_eq_false_of_not_true hst1) h1
      rw [h1'.1] at this
      exact this

theorem fm_pass_complete (thr : Int) :
    ∀ (items : List (Nat × Settlement)) (st : FMState),
      (fm_pass thr items st).new_order_added = false →
      ∀ p ∈ items, contains_valid_user_trade thr st.valid_trades p.2 = true →
        p.1 ∈ (fm_pass thr items st).valid_settlement_indices
  | [], _ => fun _ p hp _ => absurd hp (List.not_mem_nil p)
  | item :: rest, st => fun h p hp hc => by
    have h' : (fm_pass thr rest (fm_step thr st item.1 item.2)).new_order_added = false := h
    have hst1 : (fm_step thr st item.1 item.2).new_order_added = false := by
      by_contra hcc
      rw [fm_pass_noa_mono thr rest _ (bool_eq_true_of_not_false hcc)] at h'
      exact absurd h' (by simp)
    have hvt := (fm_step_noa_false thr st item.1 item.2 hst1).1
    rcases List.mem_cons.1 hp with rfl | hp'
    · exact fm_pass_vi_subset thr rest (fm_step thr st p.1 p.2)
        (fm_step_marks thr st p.1 p.2 hc)
    · exact fm_pass_complete thr rest (fm_step thr st item.1 item.2) h' p hp' (hvt ▸ hc)

theorem fm_pass_of_at_fix (thr : Int) :
    ∀ (items : List (Nat × Settlement)) (st : FMState),
      at_fix thr items st → fm_pass thr items st = st
  | [], _ => fun _ => rfl
  | item :: rest, st => fun h => by
    have hstep : fm_step thr st item.1 item.2 = st :=
      fm_step_skip thr st item.1 item.2 (h item (List.mem_cons_self _ _))
    show fm_pass thr rest (fm_step thr st item.1 item.2) = st
    rw [hstep]
    exact fm_pass_of_at_fix thr rest st (fun p hp => h p (List.mem_cons_of_mem _ hp))

theorem at_fix_after_pass (thr : Int) (items : List (Nat × Settlement)) (st : FMState)
    (hnoa : (fm_pass thr items st).new_order_added = false) :
    at_fix thr items (fm_pass thr items st) := by
  intro p hp hvi
  by_contra hc
  have hc' : contains_valid_user_trade thr (fm_pass thr items st).valid_trades p.2 = true :=
    Bool.of_not_eq_false hc
  rw [fm_pass_noa_false_vt thr items st hnoa] at hc'
  exact hvi (fm_pass_complete thr items st hnoa p hp hc')

end SolverDriver

namespace SolverDriver

theorem nodup_subset_length_le_dedup {l U : List Nat} (hn : l.Nodup) (hs : l ⊆ U) :
    l.length ≤ U.dedup.length := by
  have hs' : l ⊆ U.dedup := fun v hv => List.mem_dedup.2 (hs hv)
  exact (List.subperm_of_subset hn hs').length_le

theorem fm_loop_vt_subset (thr : Int) (items : List (Nat × Settlement)) :
    ∀ (fuel : Nat) (st : FMState),
      st.valid_trades ⊆ (fm_loop thr items fuel st).valid_trades
  | 0, _ => fun _ hv => hv
  | fuel + 1, st => fun v hv => by
    have hv1 : v ∈ (fm_pass thr items { st with new_order_added := false }).valid_trades :=
      fm_pass_vt_subset thr items { st with new_order_added := false } hv
    simp only [fm_loop]
    split
    · exact fm_loop_vt_subset thr items fuel _ hv1
    · exact hv1

theorem fm_loop_vi_subset (thr : Int) (items : List (Nat × Settlement)) :
    ∀ (fuel : Nat) (st : FMState),
      st.valid_settlement_indices ⊆ (fm_loop thr items fuel st).valid_settlement_indices
  | 0, _ => fun _ hv => hv
  | fuel + 1, st => fun v hv => by
    have hv1 : v ∈ (fm_pass thr items
        { st with new_order_added := false }).valid_settlement_indices :=
      fm_pass_vi_subset thr items { st with new_order_added := false } hv
    simp only [fm_loop]
    split
    · exact fm_loop_vi_subset thr items fuel _ hv1
    · exact hv1

theorem fm_loop_vt_cases (thr : Int) (items : List (Nat × Settlement)) :
    ∀ (fuel : Nat) (st : FMState) (v : Nat),
      v ∈ (fm_loop thr items fuel st).valid_trades →
      v ∈ st.valid_trades ∨ ∃ p ∈ items, v ∈ settlement_user_uids p.2
  | 0, _, _ => fun hv => Or.inl hv
  | fuel + 1, st, v => fun hv => by
    simp only [fm_loop] at hv
    split at hv
    · rcases fm_loop_vt_cases thr items fuel _ v hv with h | h
      · exact fm_pass_vt_cases thr items { st with new_order_added := false } v h
      · exact Or.inr h
    · exact fm_pass_vt_cases thr items { st with new_order_added := false } v hv

theorem fm_loop_nodup (thr : Int) (items : List (Nat × Settlement)) :
    ∀ (fuel : Nat) (st : FMState),
      st.valid_trades.Nodup → (fm_loop thr items fuel st).valid_trades.Nodup
  | 0, _ => fun h => h
  | fuel + 1, st => fun h => by
    have h1 : (fm_pass thr items { st with new_order_added := false }).valid_trades.Nodup :=
      fm_pass_nodup thr items { st with new_order_added := false } h
    simp only [fm_loop]
    split
    · exact fm_loop_nodup thr items fuel _ h1
    · exact h1

theorem fm_loop_fix (thr : Int) (items : List (Nat × Settlement)) (U : List Nat)
    (hitems : ∀ p ∈ items, settlement_user_uids p.2 ⊆ U) :
    ∀ (fuel : Nat) (st : FMState), st.valid_trades.Nodup → st.valid_trades ⊆ U →
      U.dedup.length + 1 ≤ fuel + st.valid_trades.length →
      at_fix thr items (fm_loop thr items fuel st) ∧
      (fm_loop thr items fuel st).new_order_added = false
  | 0, st => fun hn hsub hfuel => by
    have := nodup_subset_length_le_dedup hn hsub
    omega
  | fuel + 1, st => fun hn hsub hfuel => by
    have hn1 : (fm_pass thr items { st with new_order_added := false }).valid_trades.Nodup :=
      fm_pass_nodup thr items _ hn
    have hsub1 : (fm_pass thr items { st with new_order_added := false }).valid_trades ⊆ U := by
      intro v hv
      rcases fm_pass_vt_cases thr items { st with new_order_added := false } v hv with h | ⟨p, hp, hu⟩
      · exact hsub h
      · exact hitems p hp hu
    simp only [fm_loop]
    split
    · rename_i hnoa
      have hprog : st.valid_trades.length <
          (fm_pass thr items { st with new_order_added := false }).valid_trades.length :=
        fm_pass_progress thr items { st with new_order_added := false } rfl hnoa
      exact fm_loop_fix thr items U hitems fuel _ hn1 hsub1 (by omega)
    · rename_i hnoa
      have hnoa' : (fm_pass thr items
          { st with new_order_added := false }).new_order_added = false :=
        bool_eq_false_of_not_true hnoa
      exact ⟨at_fix_after_pass thr items { st with new_order_added := false } hnoa', hnoa'⟩

theorem mature_of_contains_valid (thr : Int) (S : List Settlement) (st : FMState)
    (hinv : FMInv thr S st) (s : Settlement) (hsS : s ∈ S)
    (hc : contains_valid_user_trade thr st.valid_trades s = true) :
    MatureSettlement thr S s := by
  obtain ⟨t, ht, hvalid⟩ := List.any_eq_true.1 hc
  rcases Bool.or_eq_true _ _ ▸ hvalid with hage | hassoc
  · exact MatureSettlement.by_age s hsS t ht (of_decide_eq_true hage)
  · have huid : t.order.uid ∈ st.valid_trades := of_decide_eq_true hassoc
    obtain ⟨a, haS, hma, hua⟩ := hinv.2 t.order.uid huid
    obtain ⟨u, hu, huid'⟩ := List.mem_map.1 hua
    exact MatureSettlement.by_assoc s hsS a hma t ht u hu huid'.symm

theorem fm_step_inv (thr : Int) (S : List Settlement) (st : FMState) (idx : Nat)
    (s : Settlement) (hidx : idx < S.length) (hgs : S.get ⟨idx, hidx⟩ = s)
    (hinv : FMInv thr S st) : FMInv thr S (fm_step thr st idx s) := by
  by_cases hm : idx ∈ st.valid_settlement_indices
  · rw [fm_step_eq_of_mem thr st idx s hm]
    exact hinv
  · by_cases hc : contains_valid_user_trade thr st.valid_trades s = true
    · have hsS : s ∈ S := hgs ▸ List.get_mem S idx hidx
      have hmature : MatureSettlement thr S s := mature_of_contains_valid thr S st hinv s hsS hc
      rw [fm_step_eq_of_valid thr st idx s hm hc]
      constructor
      · intro i hi
        rcases List.mem_cons.1 hi with rfl | hi'
        · refine ⟨hidx, hgs ▸ hmature, ?_⟩
          intro v hv
          exact (mem_insertUids _ _ _).2 (Or.inl (hgs ▸ hv))
        · obtain ⟨h, hmat, hsubset⟩ := hinv.1 i hi'
          exact ⟨h, hmat, fun v hv => insertUids_subset _ _ (hsubset hv)⟩
      · intro u hu
        rcases (mem_insertUids _ _ _).1 hu with h | h
        · exact ⟨s, hsS, hmature, h⟩
        · exact hinv.2 u h
    · rw [fm_step_eq_of_invalid thr st idx s hm (bool_eq_false_of_not_true hc)]
      exact hinv

theorem fm_pass_inv (thr : Int) (S : List Settlement) :
    ∀ (items : List (Nat × Settlement)) (st : FMState),
      (∀ p ∈ items, ∃ h : p.1 < S.length, S.get ⟨p.1, h⟩ = p.2) →
      FMInv thr S st → FMInv thr S (fm_pass thr items st)
  | [], _ => fun _ hinv => hinv
  | item :: rest, st => fun hitems hinv => by
    obtain ⟨h, hgs⟩ := hitems item (List.mem_cons_self _ _)
    exact fm_pass_inv thr S rest (fm_step thr st item.1 item.2)
      (fun p hp => hitems p (List.mem_cons_of_mem _ hp))
      (fm_step_inv thr S st item.1 item.2 h hgs hinv)

theorem fm_loop_inv (thr : Int) (S : List Settlement)
    (items : List (Nat × Settlement))
    (hitems : ∀ p ∈ items, ∃ h : p.1 < S.length, S.get ⟨p.1, h⟩ = p.2) :
    ∀ (fuel : Nat) (st : FMState), FMInv thr S st → FMInv thr S (fm_loop thr items fuel st)
  | 0, _ => fun hinv => hinv
  | fuel + 1, st => fun hinv => by
    have hinv1 : FMInv thr S (fm_pass thr items { st with new_order_added := false }) :=
      fm_pass_inv thr S items { st with new_order_added := false } hitems hinv
    simp only [fm_loop]
    split
    · exact fm_loop_inv thr S items hitems fuel _ hinv1
    · exact hinv1

end SolverDriver

namespace SolverDriver

theorem find_mature_settlements_eq_final {α : Type} (thr : Int)
    (P : List (α × Settlement)) :
    find_mature_settlements thr P =
      (fm_final thr (P.map Prod.snd)).valid_settlement_indices := rfl

theorem mem_enum_of_get {β : Type} (S : List β) (i : Nat) (hi : i < S.length) :
    (i, S.get ⟨i, hi⟩) ∈ S.enum := by
  rw [List.mk_mem_enum_iff_get?]
  exact List.get?_eq_get hi

theorem enum_get_spec {β : Type} (S : List β) (p : Nat × β) (hp : p ∈ S.enum) :
    ∃ h : p.1 < S.length, S.get ⟨p.1, h⟩ = p.2 := by
  rw [List.mem_enum_iff_get?] at hp
  exact List.get?_eq_some.1 hp

theorem uids_subset_all (S : List Settlement) (s : Settlement) (hs : s ∈ S) :
    settlement_user_uids s ⊆ all_user_uids S := by
  intro v hv
  exact List.mem_flatten.2 ⟨settlement_user_uids s, List.mem_map_of_mem _ hs, hv⟩

theorem fm_final_at_fix (thr : Int) (S : List Settlement) :
    at_fix thr S.enum (fm_final thr S) := by
  refine (fm_loop_fix thr S.enum (all_user_uids S) ?_ (fm_fuel S) ⟨[], [], false⟩
    List.nodup_nil (by intro v hv; exact absurd hv (List.not_mem_nil v)) ?_).1
  · intro p hp
    obtain ⟨h, hgs⟩ := enum_get_spec S p hp
    exact hgs ▸ uids_subset_all S _ (List.get_mem S p.1 h)
  · simp [fm_fuel]

theorem fm_final_inv (thr : Int) (S : List Settlement) :
    FMInv thr S (fm_final thr S) := by
  refine fm_loop_inv thr S S.enum (enum_get_spec S) (fm_fuel S) ⟨[], [], false⟩ ?_
  constructor
  · intro i hi
    exact absurd hi (List.not_mem_nil i)
  · intro u hu
    exact absurd hu (List.not_mem_nil u)

theorem fm_final_sound (thr : Int) (S : List Settlement) (i : Nat)
    (h : i ∈ (fm_final thr S).valid_settlement_indices) :
    ∃ hi : i < S.length, MatureSettlement thr S (S.get ⟨i, hi⟩) := by
  obtain ⟨hi, hm, _⟩ := (fm_final_inv thr S).1 i h
  exact ⟨hi, hm⟩

theorem mature_mem {thr : Int} {S : List Settlement} {s : Settlement}
    (h : MatureSettlement thr S s) : s ∈ S := by
  cases h with
  | by_age s hs t ht hage => exact hs
  | by_assoc s hs a ha t ht u hu huid => exact hs

theorem fm_final_complete (thr : Int) (S : List Settlement) (s : Settlement)
    (hm : MatureSettlement thr S s) :
    ∀ (i : Nat) (hi : i < S.length), S.get ⟨i, hi⟩ = s →
      i ∈ (fm_final thr S).valid_settlement_indices := by
  induction hm with
  | by_age s hs t ht hage =>
    intro i hi hgi
    by_contra hvi
    have hfix := fm_final_at_fix thr S (i, S.get ⟨i, hi⟩) (mem_enum_of_get S i hi) hvi
    have hc : contains_valid_user_trade thr (fm_final thr S).valid_trades
        (S.get ⟨i, hi⟩) = true := by
      refine List.any_eq_true.2 ⟨t, hgi ▸ ht, ?_⟩
      unfold trade_is_valid
      rw [decide_eq_true hage]
      simp
    rw [hfix] at hc
    exact absurd hc (by simp)
  | by_assoc s hs a ha t ht u hu huid ih =>
    intro i hi hgi
    obtain ⟨⟨j, hj⟩, hgj⟩ := List.mem_iff_get.1 (mature_mem ha)
    have hjvi : j ∈ (fm_final thr S).valid_settlement_indices := ih j hj hgj
    obtain ⟨hj', _, hsubset⟩ := (fm_final_inv thr S).1 j hjvi
    have huvt : u.order.uid ∈ (fm_final thr S).valid_trades := by
      apply hsubset
      have : S.get ⟨j, hj'⟩ = a := by
        have : (⟨j, hj⟩ : Fin S.length) = ⟨j, hj'⟩ := rfl
        rw [← this, hgj]
      rw [this]
      exact List.mem_map_of_mem _ hu
    by_contra hvi
    have hfix := fm_final_at_fix thr S (i, S.get ⟨i, hi⟩) (mem_enum_of_get S i hi) hvi
    have hc : contains_valid_user_trade thr (fm_final thr S).valid_trades
        (S.get ⟨i, hi⟩) = true := by
      refine List.any_eq_true.2 ⟨t, hgi ▸ ht, ?_⟩
      unfold trade_is_valid
      rw [decide_eq_true (huid ▸ huvt : t.order.uid ∈ (fm_final thr S).valid_trades)]
      simp
    rw [hfix] at hc
    exact absurd hc (by simp)

end SolverDriver

namespace SolverDriver

theorem map_snd_get {α : Type} (P : List (α × Settlement)) (i : Nat) (hi : i < P.length)
    (hi' : i < (P.map Prod.snd).length) :
    (P.map Prod.snd).get ⟨i, hi'⟩ = (P.get ⟨i, hi⟩).2 := by
  simp [List.get_eq_getElem, List.getElem_map]

theorem valid_index_iff {α : Type} (thr : Int) (P : List (α × Settlement))
    (i : Nat) (hi : i < P.length) :
    i ∈ find_mature_settlements thr P ↔
      MatureSettlement thr (P.map Prod.snd) (P.get ⟨i, hi⟩).2 := by
  have hi' : i < (P.map Prod.snd).length := by
    rw [List.length_map]
    exact hi
  rw [find_mature_settlements_eq_final]
  constructor
  · intro h
    obtain ⟨hj, hm⟩ := fm_final_sound thr (P.map Prod.snd) i h
    rw [← map_snd_get P i hi hj]
    exact hm
  · intro h
    exact fm_final_complete thr (P.map Prod.snd) ((P.map Prod.snd).get ⟨i, hi'⟩)
      (map_snd_get P i hi hi' ▸ h) i hi' rfl

theorem valid_index_lt {α : Type} (thr : Int) (P : List (α × Settlement))
    (i : Nat) (h : i ∈ find_mature_settlements thr P) : i < P.length := by
  rw [find_mature_settlements_eq_final] at h
  obtain ⟨hj, _⟩ := fm_final_sound thr (P.map Prod.snd) i h
  rw [List.length_map] at hj
  exact hj

theorem retained_eq {α : Type} (ma now aid : Int) (P : List (α × Settlement)) :
    (retain_mature_settlements ma now P aid).1 =
      (P.enum.filter
        (fun q => decide (q.1 ∈ find_mature_settlements (now - ma) P))).map Prod.snd := rfl

theorem notifications_eq {α : Type} (ma now aid : Int) (P : List (α × Settlement)) :
    (retain_mature_settlements ma now P aid).2 =
      (P.enum.filter
        (fun q => !(decide (q.1 ∈ find_mature_settlements (now - ma) P)))).map
        (fun q => (q.2.1, aid, AuctionResult.Rejected .NoMatureOrders)) := rfl

theorem mem_retained_iff {α : Type} (ma now aid : Int) (P : List (α × Settlement))
    (p : α × Settlement) :
    p ∈ (retain_mature_settlements ma now P aid).1 ↔
      p ∈ P ∧ MatureSettlement (now - ma) (P.map Prod.snd) p.2 := by
  rw [retained_eq]
  constructor
  · intro hp
    obtain ⟨q, hq, hqp⟩ := List.mem_map.1 hp
    obtain ⟨hqe, hqv⟩ := List.mem_filter.1 hq
    obtain ⟨hlt, hget⟩ := enum_get_spec P q hqe
    have hv : q.1 ∈ find_mature_settlements (now - ma) P := of_decide_eq_true hqv
    refine ⟨?_, ?_⟩
    · rw [← hqp, ← hget]
      exact List.get_mem P q.1 hlt
    · rw [← hqp, ← hget]
      exact (valid_index_iff (now - ma) P q.1 hlt).1 hv
  · rintro ⟨hpP, hm⟩
    obtain ⟨⟨i, hi⟩, hgi⟩ := List.mem_iff_get.1 hpP
    have hv : i ∈ find_mature_settlements (now - ma) P :=
      (valid_index_iff (now - ma) P i hi).2 (by rw [hgi]; exact hm)
    refine List.mem_map.2 ⟨(i, p), ?_, rfl⟩
    refine List.mem_filter.2 ⟨?_, decide_eq_true hv⟩
    rw [← hgi]
    exact mem_enum_of_get P i hi

theorem retained_sublist {α : Type} (ma now aid : Int) (P : List (α × Settlement)) :
    (retain_mature_settlements ma now P aid).1.Sublist P := by
  rw [retained_eq]
  have h1 : (P.enum.filter
      (fun q => decide (q.1 ∈ find_mature_settlements (now - ma) P))).Sublist P.enum :=
    List.filter_sublist P.enum
  have h2 := h1.map Prod.snd
  rw [List.enum_map_snd] at h2
  exact h2

theorem notification_solvers_iff {α : Type} (ma now aid : Int) (P : List (α × Settlement))
    (x : α) :
    x ∈ (retain_mature_settlements ma now P aid).2.map (fun n => n.1) ↔
      ∃ p ∈ P, p ∉ (retain_mature_settlements ma now P aid).1 ∧ p.1 = x := by
  rw [notifications_eq]
  rw [List.map_map]
  constructor
  · intro hx
    obtain ⟨q, hq, hqx⟩ := List.mem_map.1 hx
    obtain ⟨hqe, hqv⟩ := List.mem_filter.1 hq
    obtain ⟨hlt, hget⟩ := enum_get_spec P q hqe
    have hnv : q.1 ∉ find_mature_settlements (now - ma) P := by
      intro hc
      rw [decide_eq_true hc] at hqv
      exact absurd hqv (by simp)
    refine ⟨q.2, ?_, ?_, hqx⟩
    · rw [← hget]
      exact List.get_mem P q.1 hlt
    · intro hc
      obtain ⟨_, hm⟩ := (mem_retained_iff ma now aid P q.2).1 hc
      exact hnv ((valid_index_iff (now - ma) P q.1 hlt).2 (hget ▸ hm))
  · rintro ⟨p, hpP, hpr, hpx⟩
    obtain ⟨⟨i, hi⟩, hgi⟩ := List.mem_iff_get.1 hpP
    have hnv : i ∉ find_mature_settlements (now - ma) P := by
      intro hc
      exact hpr ((mem_retained_iff ma now aid P p).2
        ⟨hpP, hgi ▸ (valid_index_iff (now - ma) P i hi).1 hc⟩)
    refine List.mem_map.2 ⟨(i, p), ?_, hpx⟩
    refine List.mem_filter.2 ⟨?_, by rw [decide_eq_false hnv]; rfl⟩
    rw [← hgi]
    exact mem_enum_of_get P i hi

theorem notification_solvers_nodup {α : Type} (ma now aid : Int)
    (P : List (α × Settlement)) (hnd : (P.map Prod.fst).Nodup) :
    ((retain_mature_settlements ma now P aid).2.map (fun n => n.1)).Nodup := by
  rw [notifications_eq, List.map_map]
  have hsub : (P.enum.filter
      (fun q => !(decide (q.1 ∈ find_mature_settlements (now - ma) P)))).Sublist P.enum :=
    List.filter_sublist P.enum
  have heq : ((fun (n : α × Int × AuctionResult) => n.1) ∘
      (fun q : Nat × (α × Settlement) => (q.2.1, aid, AuctionResult.Rejected .NoMatureOrders))) =
      (fun q : Nat × (α × Settlement) => q.2.1) := rfl
  rw [heq]
  have h2 : ((P.enum.filter
      (fun q => !(decide (q.1 ∈ find_mature_settlements (now - ma) P)))).map
      (fun q : Nat × (α × Settlement) => q.2.1)).Sublist
      (P.enum.map (fun q : Nat × (α × Settlement) => q.2.1)) :=
    hsub.map _
  have h3 : P.enum.map (fun q : Nat × (α × Settlement) => q.2.1) = P.map Prod.fst := by
    have := congrArg (List.map Prod.fst) (List.enum_map_snd P)
    rw [List.map_map] at this
    exact this
  rw [h3] at h2
  exact hnd.sublist h2

theorem notification_payload {α : Type} (ma now aid : Int) (P : List (α × Settlement))
    (n : α × Int × AuctionResult) (hn : n ∈ (retain_mature_settlements ma now P aid).2) :
    n.2.1 = aid ∧ n.2.2 = AuctionResult.Rejected SolverRejectionReason.NoMatureOrders := by
  rw [notifications_eq] at hn
  obtain ⟨q, _, hqn⟩ := List.mem_map.1 hn
  rw [← hqn]
  exact ⟨rfl, rfl⟩

theorem retained_notifications_length {α : Type} (ma now aid : Int)
    (P : List (α × Settlement)) :
    (retain_mature_settlements ma now P aid).1.length +
      (retain_mature_settlements ma now P aid).2.length = P.length := by
  rw [retained_eq, notifications_eq, List.length_map, List.length_map,
    ← List.countP_eq_length_filter, ← List.countP_eq_length_filter]
  have := List.length_eq_countP_add_countP
    (p := fun q : Nat × (α × Settlement) =>
      decide (q.1 ∈ find_mature_settlements (now - ma) P)) P.enum
  rw [List.enum_length] at this
  have hcong : List.countP
      (fun a : Nat × (α × Settlement) =>
        decide ¬(decide (a.1 ∈ find_mature_settlements (now - ma) P) = true)) P.enum =
      List.countP
      (fun q : Nat × (α × Settlement) =>
        !(decide (q.1 ∈ find_mature_settlements (now - ma) P))) P.enum := by
    apply List.countP_congr
    intro a _
    by_cases h : a.1 ∈ find_mature_settlements (now - ma) P <;> simp [h]
  rw [hcong] at this
  omega

end SolverDriver

namespace SolverDriver

theorem mem_user_trades (s : Settlement) (t : Trade) :
    t ∈ s.user_trades ↔ t ∈ s.trades ∧ t.order.orderClass.isUser = true :=
  List.mem_filter

theorem liquidity_not_user_trade (s : Settlement) (t : Trade)
    (h : t.order.orderClass = OrderClass.liquidity) : t ∉ s.user_trades := by
  intro hc
  have := (mem_user_trades s t).1 hc
  rw [h] at this
  exact absurd this.2 (by simp [OrderClass.isUser])

theorem mature_congr {thr : Int} {S S' : List Settlement}
    (h : ∀ x : Settlement, x ∈ S ↔ x ∈ S') {s : Settlement}
    (hm : MatureSettlement thr S s) : MatureSettlement thr S' s := by
  induction hm with
  | by_age s hs t ht hage =>
    exact MatureSettlement.by_age s ((h s).1 hs) t ht hage
  | by_assoc s hs a ha t ht u hu huid ih =>
    exact MatureSettlement.by_assoc s ((h s).1 hs) a ih t ht u hu huid

theorem mature_inversion {thr : Int} {S : List Settlement} {s : Settlement}
    (h : MatureSettlement thr S s) :
    ∃ t ∈ s.user_trades, t.order.creationDate ≤ thr ∨
      ∃ a, MatureSettlement thr S a ∧ ∃ u ∈ a.user_trades, t.order.uid = u.order.uid := by
  cases h with
  | by_age s hs t ht hage => exact ⟨t, ht, Or.inl hage⟩
  | by_assoc s hs a ha t ht u hu huid => exact ⟨t, ht, Or.inr ⟨a, ha, u, hu, huid⟩⟩

end SolverDriver

/-- C1: for all rational inputs the objective value equals
`surplus + solver_fee - gas_estimate * gas_price`, computed in exact
rational arithmetic (the function is total by construction); the same
formula holds for `RatedSettlement::objective_value` with the scaled
unsubsidized fee and the gas estimate converted to a rational; and at
surplus = 1.003e18 wei, solver fee = 0.001e18 wei, gas estimate = 300000
and gas price = 10 gwei = 1e10 wei it equals exactly 1.001e18 wei. -/
theorem C1_objective_value_exact :
    (∀ s f g p : ℚ, SolverDriver.compute_objective_value s f g p = s + f - g * p) ∧
    (∀ r : SolverDriver.RatedSettlement, r.objective_value =
        r.surplus + r.scaled_unsubsidized_fee - (r.gas_estimate : ℚ) * r.gas_price) ∧
    SolverDriver.compute_objective_value 1003000000000000000 1000000000000000
        300000 10000000000 = 1001000000000000000 := by
  refine ⟨fun s f g p => rfl, fun r => rfl, ?_⟩
  norm_num [SolverDriver.compute_objective_value]

/-- C2 counterexample: the claim quantifies over every fixed gas estimate,
but with gas estimate 0 the objective value does not depend on the gas
price at all, so it is not strictly decreasing in the gas price. -/
theorem C2_counterexample :
    ¬ (∀ s f g p1 p2 : ℚ, p1 < p2 →
        SolverDriver.compute_objective_value s f g p2 <
          SolverDriver.compute_objective_value s f g p1) := by
  intro h
  have := h 0 0 0 0 1 (by norm_num)
  simp [SolverDriver.compute_objective_value] at this

/-- C2 (amended): for every fixed surplus, solver fee and positive gas
estimate, the objective value is strictly decreasing in the gas price; and
two distinct surplus/fee/gas combinations (the two from the repository's
own test, at 30 gwei) have exactly equal objective values under rational
equality. -/
theorem C2_strictly_decreasing_and_ties :
    (∀ s f g p1 p2 : ℚ, 0 < g → p1 < p2 →
        SolverDriver.compute_objective_value s f g p2 <
          SolverDriver.compute_objective_value s f g p1) ∧
    (SolverDriver.compute_objective_value 1003000000000000000 1000000000000000
        300000 30000000000 =
      SolverDriver.compute_objective_value 1009000000000000000 1000000000000000
        500000 30000000000 ∧
      ((1003000000000000000 : ℚ), (300000 : ℚ)) ≠
        ((1009000000000000000 : ℚ), (500000 : ℚ))) := by
  refine ⟨?_, by norm_num [SolverDriver.compute_objective_value], by norm_num⟩
  intro s f g p1 p2 hg hp
  have hmul : g * p1 < g * p2 := by
    exact mul_lt_mul_of_pos_left hp hg
  simp only [SolverDriver.compute_objective_value]
  linarith

/-- C2 witness: the strict-decrease part of the amended claim applied at the
repository test's inputs, 10 gwei versus 50 gwei. -/
theorem C2_witness :
    SolverDriver.compute_objective_value 1003000000000000000 1000000000000000
        300000 50000000000 <
      SolverDriver.compute_objective_value 1003000000000000000 1000000000000000
        300000 10000000000 :=
  C2_strictly_decreasing_and_ties.1 1003000000000000000 1000000000000000
    300000 10000000000 50000000000 (by norm_num) (by norm_num)

/-- C9: the trivial solution is a well-formed `Solution` value whose price
map, trade list and interaction list are all empty. -/
theorem C9_trivial_solution_empty :
    SolversDto.Solution.trivial.prices = [] ∧
    SolversDto.Solution.trivial.trades = [] ∧
    SolversDto.Solution.trivial.interactions = [] :=
  ⟨rfl, rfl, rfl⟩

/-- C10: the fee-info response is HTTP 200 with a `FeeInfo` body whose
`fee_ratio` is 0 exactly when the input is `Ok(Some(minimal_fee,
expiration_date))` (and the body then carries exactly those two values),
HTTP 404 with the `NotFound` error body exactly when the input is
`Ok(None)`, and HTTP 500 with the internal-error body exactly when the
input is `Err`. -/
theorem C10_fee_info_response (r : Except String (Option (Nat × Int))) :
    ((∃ mf ed, r = Except.ok (some (mf, ed))) ↔
      ∃ info, Orderbook.get_fee_info_response r = (Orderbook.ReplyBody.feeInfo info, 200) ∧
        info.fee_ratio = 0) ∧
    (∀ mf ed, r = Except.ok (some (mf, ed)) →
      Orderbook.get_fee_info_response r =
        (Orderbook.ReplyBody.feeInfo ⟨ed, mf, 0⟩, 200)) ∧
    (Orderbook.get_fee_info_response r =
        (Orderbook.ReplyBody.errorBody "NotFound" "Token was not found", 404) ↔
      r = Except.ok none) ∧
    (((Orderbook.get_fee_info_response r).2 = 500 ∧
        (Orderbook.get_fee_info_response r).1 = Orderbook.ReplyBody.internalErrorBody) ↔
      ∃ e, r = Except.error e) := by
  rcases r with e | op
  · refine ⟨⟨?_, ?_⟩, ?_, ⟨?_, ?_⟩, ⟨fun _ => ⟨e, rfl⟩, fun _ => ⟨rfl, rfl⟩⟩⟩
    · rintro ⟨mf, ed, h⟩
      exact absurd h (by simp)
    · rintro ⟨info, h, _⟩
      exact absurd h (by simp [Orderbook.get_fee_info_response])
    · intro mf ed h
      exact absurd h (by simp)
    · intro h
      exact absurd h (by simp [Orderbook.get_fee_info_response])
    · intro h
      exact absurd h (by simp)
  · rcases op with _ | ⟨mf, ed⟩
    · refine ⟨⟨?_, ?_⟩, ?_, ⟨fun _ => rfl, fun _ => rfl⟩, ⟨?_, ?_⟩⟩
      · rintro ⟨mf, ed, h⟩
        exact absurd h (by simp)
      · rintro ⟨info, h, _⟩
        exact absurd h (by simp [Orderbook.get_fee_info_response])
      · intro mf ed h
        exact absurd h (by simp)
      · rintro ⟨h, _⟩
        exact absurd h (by simp [Orderbook.get_fee_info_response])
      · rintro ⟨e, h⟩
        exact absurd h (by simp)
    · refine ⟨⟨?_, ?_⟩, ?_, ⟨?_, ?_⟩, ⟨?_, ?_⟩⟩
      · intro _
        exact ⟨⟨ed, mf, 0⟩, rfl, rfl⟩
      · intro _
        exact ⟨mf, ed, rfl⟩
      · intro mf' ed' h
        obtain ⟨rfl, rfl⟩ : mf = mf' ∧ ed = ed' := by simpa using h
        rfl
      · intro h
        exact absurd h (by simp [Orderbook.get_fee_info_response])
      · intro h
        exact absurd h (by simp)
      · rintro ⟨h, _⟩
        exact absurd h (by simp [Orderbook.get_fee_info_response])
      · rintro ⟨e, h⟩
        exact absurd h (by simp)

/-- C3: a settlement containing at least one user (Market or Limit) trade
whose order's creation date is at least `min_order_age` older than the
frozen evaluation time is always retained, regardless of the other
settlements in the list. -/
theorem C3_mature_by_age_retained {α : Type} (min_order_age now auction_id : Int)
    (P : List (α × SolverDriver.Settlement)) (p : α × SolverDriver.Settlement)
    (hp : p ∈ P) (t : SolverDriver.Trade) (ht : t ∈ p.2.trades)
    (huser : t.order.orderClass.isUser = true)
    (hage : min_order_age ≤ now - t.order.creationDate) :
    p ∈ (SolverDriver.retain_mature_settlements min_order_age now P auction_id).1 := by
  refine (SolverDriver.mem_retained_iff min_order_age now auction_id P p).2 ⟨hp, ?_⟩
  refine SolverDriver.MatureSettlement.by_age p.2 (List.mem_map_of_mem Prod.snd hp) t
    ((SolverDriver.mem_user_trades p.2 t).2 ⟨ht, huser⟩) (by omega)

/-- C3 witness: a single settlement with one market order created at time 0,
evaluated at time 1000 with a 60-unit age threshold, is retained. -/
theorem C3_witness :
    ((0 : Nat), SolverDriver.Settlement.mk [⟨⟨1, 0, SolverDriver.OrderClass.market⟩⟩]) ∈
      (SolverDriver.retain_mature_settlements 60 1000
        [((0 : Nat),
          SolverDriver.Settlement.mk [⟨⟨1, 0, SolverDriver.OrderClass.market⟩⟩])] 5).1 :=
  C3_mature_by_age_retained 60 1000 5 _ _ (List.mem_cons_self _ _)
    ⟨⟨1, 0, SolverDriver.OrderClass.market⟩⟩ (List.mem_cons_self _ _) rfl (by decide)

/-- C4: if settlement A is mature and settlement B (in the list) shares an
order uid with A through trades that are user trades in both, then B is
mature and retained — transitivity across chains follows because the
conclusion is again maturity; user trades never have Liquidity class, so a
shared order carried by a Liquidity-class trade contributes nothing; and
every mature settlement owes its maturity to one of its user trades, either
old enough or sharing a uid with a user trade of a mature settlement. -/
theorem C4_maturity_association {α : Type} (min_order_age now auction_id : Int)
    (P : List (α × SolverDriver.Settlement)) :
    (∀ (a : SolverDriver.Settlement) (p : α × SolverDriver.Settlement), p ∈ P →
        SolverDriver.MatureSettlement (now - min_order_age) (P.map Prod.snd) a →
        (∃ t ∈ p.2.user_trades, ∃ u ∈ a.user_trades, t.order.uid = u.order.uid) →
        SolverDriver.MatureSettlement (now - min_order_age) (P.map Prod.snd) p.2 ∧
          p ∈ (SolverDriver.retain_mature_settlements min_order_age now P auction_id).1) ∧
    (∀ (s : SolverDriver.Settlement) (t : SolverDriver.Trade),
        t.order.orderClass = SolverDriver.OrderClass.liquidity →
        t ∉ s.user_trades) ∧
    (∀ b : SolverDriver.Settlement,
        SolverDriver.MatureSettlement (now - min_order_age) (P.map Prod.snd) b →
        ∃ t ∈ b.user_trades, t.order.creationDate ≤ now - min_order_age ∨
          ∃ a, SolverDriver.MatureSettlement (now - min_order_age) (P.map Prod.snd) a ∧
            ∃ u ∈ a.user_trades, t.order.uid = u.order.uid) := by
  refine ⟨?_, SolverDriver.liquidity_not_user_trade, fun b hb => SolverDriver.mature_inversion hb⟩
  rintro a p hp ha ⟨t, ht, u, hu, huid⟩
  have hm : SolverDriver.MatureSettlement (now - min_order_age) (P.map Prod.snd) p.2 :=
    SolverDriver.MatureSettlement.by_assoc p.2 (List.mem_map_of_mem Prod.snd hp) a ha t ht u hu huid
  exact ⟨hm, (SolverDriver.mem_retained_iff min_order_age now auction_id P p).2 ⟨hp, hm⟩⟩

/-- C4 witness: settlement B shares order uid 1 (a market order) with a
settlement A that is mature by age, so B is retained. -/
theorem C4_witness :
    ((1 : Nat), SolverDriver.Settlement.mk [⟨⟨1, 1000, SolverDriver.OrderClass.market⟩⟩]) ∈
      (SolverDriver.retain_mature_settlements 60 1000
        [((0 : Nat), SolverDriver.Settlement.mk [⟨⟨1, 0, SolverDriver.OrderClass.market⟩⟩]),
         ((1 : Nat),
          SolverDriver.Settlement.mk [⟨⟨1, 1000, SolverDriver.OrderClass.market⟩⟩])] 5).1 :=
  ((C4_maturity_association 60 1000 5
      [((0 : Nat), SolverDriver.Settlement.mk [⟨⟨1, 0, SolverDriver.OrderClass.market⟩⟩]),
       ((1 : Nat),
        SolverDriver.Settlement.mk [⟨⟨1, 1000, SolverDriver.OrderClass.market⟩⟩])]).1
    (SolverDriver.Settlement.mk [⟨⟨1, 0, SolverDriver.OrderClass.market⟩⟩])
    ((1 : Nat), SolverDriver.Settlement.mk [⟨⟨1, 1000, SolverDriver.OrderClass.market⟩⟩])
    (by decide)
    (SolverDriver.MatureSettlement.by_age _ (by decide)
      ⟨⟨1, 0, SolverDriver.OrderClass.market⟩⟩ (by decide) (by decide))
    ⟨⟨⟨1, 1000, SolverDriver.OrderClass.market⟩⟩, by decide,
      ⟨⟨1, 0, SolverDriver.OrderClass.market⟩⟩, by decide, rfl⟩).2

/-- C5: for every input list and every age threshold, a settlement with no
user (Market or Limit) trades is never retained, however old its
Liquidity-class trades may be. -/
theorem C5_no_user_trades_never_retained {α : Type} (min_order_age now auction_id : Int)
    (P : List (α × SolverDriver.Settlement)) (p : α × SolverDriver.Settlement)
    (h : p.2.user_trades = []) :
    p ∉ (SolverDriver.retain_mature_settlements min_order_age now P auction_id).1 := by
  intro hc
  obtain ⟨_, hm⟩ := (SolverDriver.mem_retained_iff min_order_age now auction_id P p).1 hc
  obtain ⟨t, ht, _⟩ := SolverDriver.mature_inversion hm
  rw [h] at ht
  exact absurd ht (List.not_mem_nil t)

/-- C5 witness: a settlement whose only trade is a very old Liquidity-class
order has no user trades and is not retained. -/
theorem C5_witness :
    ((0 : Nat),
      SolverDriver.Settlement.mk [⟨⟨7, -1000000, SolverDriver.OrderClass.liquidity⟩⟩]) ∉
      (SolverDriver.retain_mature_settlements 60 1000
        [((0 : Nat),
          SolverDriver.Settlement.mk
            [⟨⟨7, -1000000, SolverDriver.OrderClass.liquidity⟩⟩])] 5).1 :=
  C5_no_user_trades_never_retained 60 1000 5 _ _ rfl

/-- C6: for permuted input lists (same frozen evaluation time), the
maturity filter retains exactly the same set of settlements; membership in
the output is invariant under permutation of the input. -/
theorem C6_permutation_invariant {α : Type} (min_order_age now auction_id : Int)
    (P Q : List (α × SolverDriver.Settlement)) (hperm : P.Perm Q)
    (p : α × SolverDriver.Settlement) :
    p ∈ (SolverDriver.retain_mature_settlements min_order_age now P auction_id).1 ↔
      p ∈ (SolverDriver.retain_mature_settlements min_order_age now Q auction_id).1 := by
  rw [SolverDriver.mem_retained_iff, SolverDriver.mem_retained_iff]
  have hmem : ∀ x : SolverDriver.Settlement, x ∈ P.map Prod.snd ↔ x ∈ Q.map Prod.snd :=
    fun x => (hperm.map Prod.snd).mem_iff
  constructor
  · rintro ⟨hp, hm⟩
    exact ⟨hperm.mem_iff.1 hp, SolverDriver.mature_congr hmem hm⟩
  · rintro ⟨hp, hm⟩
    exact ⟨hperm.mem_iff.2 hp, SolverDriver.mature_congr (fun x => (hmem x).symm) hm⟩

/-- C6 witness: the permutation-invariance of retention applied to a
two-settlement list and its swap. -/
theorem C6_witness :
    (((0 : Nat), SolverDriver.Settlement.mk [⟨⟨1, 0, SolverDriver.OrderClass.market⟩⟩]) ∈
      (SolverDriver.retain_mature_settlements 60 1000
        [((0 : Nat), SolverDriver.Settlement.mk [⟨⟨1, 0, SolverDriver.OrderClass.market⟩⟩]),
         ((1 : Nat),
          SolverDriver.Settlement.mk [⟨⟨2, 1000, SolverDriver.OrderClass.market⟩⟩])] 5).1) ↔
    (((0 : Nat), SolverDriver.Settlement.mk [⟨⟨1, 0, SolverDriver.OrderClass.market⟩⟩]) ∈
      (SolverDriver.retain_mature_settlements 60 1000
        [((1 : Nat), SolverDriver.Settlement.mk [⟨⟨2, 1000, SolverDriver.OrderClass.market⟩⟩]),
         ((0 : Nat),
          SolverDriver.Settlement.mk [⟨⟨1, 0, SolverDriver.OrderClass.market⟩⟩])] 5).1) :=
  C6_permutation_invariant 60 1000 5 _ _
    (List.Perm.swap
      ((1 : Nat), SolverDriver.Settlement.mk [⟨⟨2, 1000, SolverDriver.OrderClass.market⟩⟩])
      ((0 : Nat), SolverDriver.Settlement.mk [⟨⟨1, 0, SolverDriver.OrderClass.market⟩⟩]) [])
    ((0 : Nat), SolverDriver.Settlement.mk [⟨⟨1, 0, SolverDriver.OrderClass.market⟩⟩])

/-- C7: termination of the fixed-point loop — the accumulated mature-order
uid set grows monotonically with every pass, stays duplicate-free inside
the distinct user-order uids of the input (so it is bounded by their
number), and with the stated fuel the loop ends in a state that a further
full pass leaves unchanged, adding no new order uid; the filter reads its
valid indices off that final state. -/
theorem C7_fixed_point_terminates {α : Type} (threshold : Int)
    (P : List (α × SolverDriver.Settlement)) :
    (∀ st : SolverDriver.FMState, st.valid_trades ⊆
        (SolverDriver.fm_pass threshold (P.map Prod.snd).enum st).valid_trades) ∧
    (SolverDriver.fm_final threshold (P.map Prod.snd)).valid_trades.Nodup ∧
    ((SolverDriver.fm_final threshold (P.map Prod.snd)).valid_trades ⊆
        SolverDriver.all_user_uids (P.map Prod.snd)) ∧
    ((SolverDriver.fm_final threshold (P.map Prod.snd)).valid_trades.length ≤
        (SolverDriver.all_user_uids (P.map Prod.snd)).dedup.length) ∧
    (SolverDriver.fm_pass threshold (P.map Prod.snd).enum
        { SolverDriver.fm_final threshold (P.map Prod.snd) with new_order_added := false } =
      { SolverDriver.fm_final threshold (P.map Prod.snd) with new_order_added := false }) ∧
    SolverDriver.find_mature_settlements threshold P =
      (SolverDriver.fm_final threshold (P.map Prod.snd)).valid_settlement_indices := by
  have hnodup : (SolverDriver.fm_final threshold (P.map Prod.snd)).valid_trades.Nodup :=
    SolverDriver.fm_loop_nodup threshold (P.map Prod.snd).enum
      (SolverDriver.fm_fuel (P.map Prod.snd)) ⟨[], [], false⟩ List.nodup_nil
  have hsub : (SolverDriver.fm_final threshold (P.map Prod.snd)).valid_trades ⊆
      SolverDriver.all_user_uids (P.map Prod.snd) := by
    intro v hv
    rcases SolverDriver.fm_loop_vt_cases threshold (P.map Prod.snd).enum
        (SolverDriver.fm_fuel (P.map Prod.snd)) ⟨[], [], false⟩ v hv with h | ⟨q, hq, hu⟩
    · exact absurd h (List.not_mem_nil v)
    · obtain ⟨hlt, hget⟩ := SolverDriver.enum_get_spec (P.map Prod.snd) q hq
      exact SolverDriver.uids_subset_all (P.map Prod.snd) q.2
        (hget ▸ List.get_mem (P.map Prod.snd) q.1 hlt) hu
  refine ⟨fun st => SolverDriver.fm_pass_vt_subset threshold (P.map Prod.snd).enum st,
    hnodup, hsub, SolverDriver.nodup_subset_length_le_dedup hnodup hsub, ?_, rfl⟩
  exact SolverDriver.fm_pass_of_at_fix threshold (P.map Prod.snd).enum
    { SolverDriver.fm_final threshold (P.map Prod.snd) with new_order_added := false }
    (SolverDriver.fm_final_at_fix threshold (P.map Prod.snd))

/-- C7 witness: the no-duplicates bound of the final uid set for a concrete
one-settlement input. -/
theorem C7_witness :
    (SolverDriver.fm_final 940
      ([((0 : Nat), SolverDriver.Settlement.mk
          [⟨⟨1, 0, SolverDriver.OrderClass.market⟩⟩])].map Prod.snd)).valid_trades.Nodup :=
  (C7_fixed_point_terminates 940
    [((0 : Nat), SolverDriver.Settlement.mk [⟨⟨1, 0, SolverDriver.OrderClass.market⟩⟩])]).2.1

/-- C8: the filter returns the subsequence of input pairs that are mature
(pairs unchanged, input order preserved); one notification is produced per
excluded settlement, each carrying the auction id and rejection reason
`NoMatureOrders`; with pairwise distinct solver handles, the notified
solvers are exactly (and each exactly once) the solvers of excluded
settlements, so solvers of retained settlements receive none; an empty
input returns empty with no notifications. -/
theorem C8_contract_and_notifications {α : Type} (min_order_age now auction_id : Int)
    (P : List (α × SolverDriver.Settlement)) (hnd : (P.map Prod.fst).Nodup) :
    (SolverDriver.retain_mature_settlements min_order_age now P auction_id).1.Sublist P ∧
    (∀ p ∈ P, (p ∈ (SolverDriver.retain_mature_settlements min_order_age now P auction_id).1 ↔
        SolverDriver.MatureSettlement (now - min_order_age) (P.map Prod.snd) p.2)) ∧
    (SolverDriver.retain_mature_settlements min_order_age now P auction_id).1.length +
        (SolverDriver.retain_mature_settlements min_order_age now P auction_id).2.length =
      P.length ∧
    (∀ n ∈ (SolverDriver.retain_mature_settlements min_order_age now P auction_id).2,
        n.2.1 = auction_id ∧
        n.2.2 = SolverDriver.AuctionResult.Rejected
          SolverDriver.SolverRejectionReason.NoMatureOrders) ∧
    ((SolverDriver.retain_mature_settlements min_order_age now P auction_id).2.map
        (fun n => n.1)).Nodup ∧
    (∀ x : α,
        x ∈ (SolverDriver.retain_mature_settlements min_order_age now P auction_id).2.map
          (fun n => n.1) ↔
        ∃ p ∈ P, p ∉ (SolverDriver.retain_mature_settlements min_order_age now P auction_id).1 ∧
          p.1 = x) ∧
    (P = [] → (SolverDriver.retain_mature_settlements min_order_age now P auction_id).1 = [] ∧
        (SolverDriver.retain_mature_settlements min_order_age now P auction_id).2 = []) := by
  refine ⟨SolverDriver.retained_sublist min_order_age now auction_id P,
    fun p hp => ?_,
    SolverDriver.retained_notifications_length min_order_age now auction_id P,
    fun n hn => SolverDriver.notification_payload min_order_age now auction_id P n hn,
    SolverDriver.notification_solvers_nodup min_order_age now auction_id P hnd,
    fun x => SolverDriver.notification_solvers_iff min_order_age now auction_id P x,
    ?_⟩
  · rw [SolverDriver.mem_retained_iff]
    exact ⟨fun h => h.2, fun h => ⟨hp, h⟩⟩
  · rintro rfl
    exact ⟨rfl, rfl⟩

/-- C8 witness: the three-settlement scenario in which no order is older
than the 50-unit threshold — the pair counts of retained settlements plus
notifications add up to the input length. -/
theorem C8_witness :
    (SolverDriver.retain_mature_settlements 50 1000
        [((0 : Nat), SolverDriver.Settlement.mk [⟨⟨1, 1000, SolverDriver.OrderClass.market⟩⟩]),
         ((1 : Nat), SolverDriver.Settlement.mk [⟨⟨2, 1000, SolverDriver.OrderClass.market⟩⟩]),
         ((2 : Nat), SolverDriver.Settlement.mk
            [⟨⟨3, 1000, SolverDriver.OrderClass.market⟩⟩])] 7).1.length +
      (SolverDriver.retain_mature_settlements 50 1000
        [((0 : Nat), SolverDriver.Settlement.mk [⟨⟨1, 1000, SolverDriver.OrderClass.market⟩⟩]),
         ((1 : Nat), SolverDriver.Settlement.mk [⟨⟨2, 1000, SolverDriver.OrderClass.market⟩⟩]),
         ((2 : Nat), SolverDriver.Settlement.mk
            [⟨⟨3, 1000, SolverDriver.OrderClass.market⟩⟩])] 7).2.length = 3 :=
  (C8_contract_and_notifications 50 1000 7
    [((0 : Nat), SolverDriver.Settlement.mk [⟨⟨1, 1000, SolverDriver.OrderClass.market⟩⟩]),
     ((1 : Nat), SolverDriver.Settlement.mk [⟨⟨2, 1000, SolverDriver.OrderClass.market⟩⟩]),
     ((2 : Nat), SolverDriver.Settlement.mk [⟨⟨3, 1000, SolverDriver.OrderClass.market⟩⟩])]
    (by decide)).2.2.1

/-- C10 witness: the response characterisation applied at the concrete
input `Ok(None)`, yielding the 404 NotFound reply. -/
theorem C10_witness :
    Orderbook.get_fee_info_response (Except.ok none) =
      (Orderbook.ReplyBody.errorBody "NotFound" "Token was not found", 404) :=
  (C10_fee_info_response (Except.ok none)).2.2.1.2 rfl
